import Mathlib

/-!
# Verification of the Broadlink IR transcoding engine

Shallow embedding of the IR code conversion utilities of the
`uc-intg-broadlink` repository (`intg-broadlink/ir_converter.py` and the
encoder helper in `test_pronto_conversion.py`), together with theorems
settling the behavioural claims about them.

Modelling conventions:
* Python `int` is `ℤ` (or `ℕ` where the value is provably non-negative).
* Python floats are modelled exactly: an IEEE-754 binary64 value is a pair
  (signed 53-bit mantissa, binary exponent), and each arithmetic operation
  rounds its exact rational result to 53 bits of precision, ties to even.
  The model was cross-checked value-by-value against CPython on the
  constants and products occurring here.
* Python exceptions are an explicit error type (`PyExc`) and fallible
  functions return `Except PyExc _`.
* Strings are processed as their character lists.
-/

set_option maxRecDepth 8000

namespace Broadlink

/-- Python exception classes raised by the converter code.  The message
strings mirror CPython's wording where the code does not supply its own. -/
inductive PyExc where
  | valueError (msg : String)
  | typeError (msg : String)
  | indexError (msg : String)
  | zeroDivisionError (msg : String)
  | overflowError (msg : String)
deriving DecidableEq, Repr

deriving instance DecidableEq for Except

/-- `true` exactly on results that are a raised `ValueError`. -/
def isValueErrorResult {α : Type} : Except PyExc α → Bool
  | .error (.valueError _) => true
  | _ => false

/- ### Character-level utilities (Python `str` helpers) -/

/-- ASCII hexadecimal digit test (regex class `[0-9A-Fa-f]`). -/
def isHexChar (c : Char) : Bool :=
  c.isDigit || ('a' ≤ c && c ≤ 'f') || ('A' ≤ c && c ≤ 'F')

/-- Value of a hexadecimal digit. -/
def hexVal (c : Char) : ℕ :=
  if c.isDigit then c.toNat - '0'.toNat
  else if 'a' ≤ c && c ≤ 'f' then c.toNat - 'a'.toNat + 10
  else c.toNat - 'A'.toNat + 10

/-- `prefixChars` is an initial segment of `l` (char-list `startswith`). -/
def leadsWith : List Char → List Char → Bool
  | [], _ => true
  | _ :: _, [] => false
  | a :: as, b :: bs => a = b && leadsWith as bs

/-- Python `str.strip()` on a character list (default whitespace strip). -/
def stripChars (l : List Char) : List Char :=
  ((l.dropWhile Char.isWhitespace).reverse.dropWhile Char.isWhitespace).reverse

/-- Python `str.split(sep)` for a single-character separator: keeps empty
fields, as CPython does. -/
def splitOnChar (sep : Char) (l : List Char) : List (List Char) :=
  l.foldr
    (fun ch acc =>
      if ch = sep then [] :: acc
      else
        match acc with
        | h :: t => (ch :: h) :: t
        | [] => [[ch]])
    [[]]

/-- Python `str.lower()` (ASCII fragment used by the converter). -/
def lowerChars (l : List Char) : List Char := l.map Char.toLower

/-- Digits of a Python decimal integer literal body. -/
def decDigits? (l : List Char) : Option ℕ :=
  l.foldl
    (fun acc c =>
      match acc with
      | none => none
      | some n => if c.isDigit then some (n * 10 + (c.toNat - '0'.toNat)) else none)
    (some 0)

/-- Digits of a Python base-16 integer literal body. -/
def hexDigits? (l : List Char) : Option ℕ :=
  l.foldl
    (fun acc c =>
      match acc with
      | none => none
      | some n => if isHexChar c then some (n * 16 + hexVal c) else none)
    (some 0)

/-- Model of Python `int(s)`: optional surrounding whitespace, an optional
sign, then at least one decimal digit.  (Digit-group underscores and
non-ASCII digits, which never occur in IR code strings, are not modelled.) -/
def pyInt (l : List Char) : Option ℤ :=
  match stripChars l with
  | [] => none
  | '+' :: rest => if rest = [] then none else (decDigits? rest).map (·)
  | '-' :: rest => if rest = [] then none else (decDigits? rest).map (fun n => -(n : ℤ))
  | rest => (decDigits? rest).map (·)

/-- Model of Python `int(s, 16)`: optional surrounding whitespace, an
optional `0x`/`0X` marker, then at least one hex digit.  Signed hex
literals are not modelled (they do not occur in IR descriptors). -/
def pyIntHex (l : List Char) : Option ℕ :=
  let body :=
    match stripChars l with
    | '0' :: 'x' :: rest => rest
    | '0' :: 'X' :: rest => rest
    | rest => rest
  if body = [] then none else hexDigits? body

/- ### Exact model of IEEE-754 binary64 arithmetic

CPython's `float` is an IEEE-754 binary64.  A finite value is represented
here as `mant * 2 ^ exp` with `mant` a signed integer whose absolute value
is `0` or lies in `[2^52, 2^53)`.  Every operation below computes the exact
rational result and rounds it to that precision (round to nearest, ties to
even), which is precisely the IEEE behaviour in the value ranges reached by
the converter (no overflow or subnormals). -/

/-- Fuelled bit-length helper. -/
def bitLenAux : ℕ → ℕ → ℕ
  | 0, _ => 0
  | f + 1, n => if n = 0 then 0 else bitLenAux f (n / 2) + 1

/-- Number of binary digits of `n` (0 for 0). -/
def bitLen (n : ℕ) : ℕ := bitLenAux 512 n

/-- Euclidean division of `p` by `q` scaled by `2 ^ (-e)`:
returns numerator, divisor pair used by `normRound53`. -/
def scaledPair (p q : ℕ) (e : ℤ) : ℕ × ℕ :=
  if 0 ≤ e then (p, q * 2 ^ e.toNat) else (p * 2 ^ (-e).toNat, q)

/-- Round the mantissa `pp / dd` to an integer, ties to even. -/
def roundMant (pp dd : ℕ) : ℕ :=
  let m0 := pp / dd
  let r := pp % dd
  if dd < 2 * r then m0 + 1
  else if 2 * r < dd then m0
  else if m0 % 2 = 0 then m0 else m0 + 1

/-- Round the positive rational `p / q` (`p, q ≥ 1`) to 53 binary digits of
precision, ties to even: returns `(m, e)` with value `m * 2 ^ e` and
`2^52 ≤ m < 2^53` (or `2^53` collapsing to the next exponent). -/
def normRound53 (p q : ℕ) : ℕ × ℤ :=
  let e0 : ℤ := (bitLen p : ℤ) - (bitLen q : ℤ) - 53
  let pd0 := scaledPair p q e0
  let e1 : ℤ :=
    if 2 ^ 53 ≤ pd0.1 / pd0.2 then e0 + 1
    else if pd0.1 / pd0.2 < 2 ^ 52 then e0 - 1
    else e0
  let pd := scaledPair p q e1
  let m := roundMant pd.1 pd.2
  if m = 2 ^ 53 then (2 ^ 52, e1 + 1) else (m, e1)

/-- An exactly-represented IEEE-754 binary64 value: `mant * 2 ^ exp`. -/
structure DFloat where
  mant : ℤ
  exp : ℤ
deriving DecidableEq, Repr

/-- The double nearest to a natural number (exact for `n < 2 ^ 53`). -/
def dOfNat (n : ℕ) : DFloat :=
  if n = 0 then ⟨0, 0⟩ else
  let me := normRound53 n 1
  ⟨(me.1 : ℤ), me.2⟩

/-- The double nearest to an integer (Python `int` → `float` conversion). -/
def dOfInt (z : ℤ) : DFloat :=
  if z < 0 then
    let d := dOfNat z.natAbs
    ⟨-d.mant, d.exp⟩
  else dOfNat z.natAbs

/-- IEEE-754 binary64 multiplication on exact representations. -/
def dmul (a b : DFloat) : DFloat :=
  if a.mant = 0 ∨ b.mant = 0 then ⟨0, 0⟩
  else
    let me := normRound53 (a.mant.natAbs * b.mant.natAbs) 1
    let s : ℤ := if (a.mant < 0) = (b.mant < 0) then 1 else -1
    ⟨s * me.1, me.2 + a.exp + b.exp⟩

/-- IEEE-754 binary64 division on exact representations (callers guard
against a zero divisor, as the Python code raises before dividing). -/
def ddiv (a b : DFloat) : DFloat :=
  if a.mant = 0 ∨ b.mant = 0 then ⟨0, 0⟩
  else
    let me := normRound53 a.mant.natAbs b.mant.natAbs
    let s : ℤ := if (a.mant < 0) = (b.mant < 0) then 1 else -1
    ⟨s * me.1, me.2 + a.exp - b.exp⟩

/-- Round `p / q` (`q ≥ 1`) to the nearest natural number, ties to even. -/
def halfEvenNat (p q : ℕ) : ℕ :=
  let n := p / q
  let r := p % q
  if q < 2 * r then n + 1
  else if 2 * r < q then n
  else if n % 2 = 0 then n else n + 1

/-- Nearest integer to the non-negative double `m * 2 ^ e`, ties to even. -/
def pyRoundPos (m : ℕ) (e : ℤ) : ℕ :=
  if 0 ≤ e then m * 2 ^ e.toNat else halfEvenNat m (2 ^ (-e).toNat)

/-- Python 3 `round(x)` for a finite double `x`: round half to even on the
exact value of the double. -/
def pyRound (a : DFloat) : ℤ :=
  if a.mant < 0 then -(pyRoundPos a.mant.natAbs a.exp : ℤ)
  else (pyRoundPos a.mant.natAbs a.exp : ℤ)

/- ### `ir_converter.py`: global defaults -/

def DEFAULT_HOLD_MS : ℤ := 300

def DEFAULT_TRAILING_SILENCE_US : ℤ := 105000

def MAX_REPEAT_EXPANSIONS : ℤ := 8

def SMALL_OFF_GAP_US : ℤ := 560

/- ### `ir_converter.py`: BroadLink raw HEX passthrough -/

/-- `_clean_hex`: remove every character outside `[0-9A-Fa-f]`. -/
def clean_hex (l : List Char) : List Char := l.filter isHexChar

/-- `_looks_like_broadlink_hex`: after removing all whitespace, the string
must be pure hex, of even length at least 4, and start with `26`
case-insensitively. -/
def looks_like_broadlink_hex (l : List Char) : Bool :=
  let stripped := l.filter (fun c => !c.isWhitespace)
  if stripped.length < 4 || stripped.length % 2 ≠ 0 then false
  else if !stripped.all isHexChar then false
  else leadsWith "26".data (lowerChars stripped)

/-- `binascii.unhexlify` on a character list: pairs of hex digits to byte
values; fails on an odd-length or non-hex input. -/
def unhexlify : List Char → Option (List ℕ)
  | [] => some []
  | [_] => none
  | a :: b :: rest =>
    if isHexChar a && isHexChar b then
      (unhexlify rest).map ((hexVal a * 16 + hexVal b) :: ·)
    else none

/-- `hex_to_broadlink`: treat the string as an already BroadLink-ready raw
byte payload; clean non-hex characters, require even positive length,
decode. -/
def hex_to_broadlink (s : String) : Except PyExc (List ℕ) :=
  let cleaned := clean_hex s.data
  if cleaned.length = 0 ∨ cleaned.length % 2 ≠ 0 then
    .error (.valueError "HEX: invalid length for BroadLink passthrough")
  else
    match unhexlify cleaned with
    | some bs => .ok bs
    | none => .error (.valueError "HEX: decode error")

/- ### `ir_converter.py`: Global Caché `sendir` parsing -/

/-- `list(map(int, fields))`, failing with Python's `int()` `ValueError` at
the first unparsable field. -/
def pyIntAll : List (List Char) → Except PyExc (List ℤ)
  | [] => .ok []
  | f :: rest =>
    match pyInt f with
    | none =>
      .error (.valueError ("invalid literal for int() with base 10: '" ++ ⟨f⟩ ++ "'"))
    | some v => (pyIntAll rest).map (v :: ·)

/-- `gc_to_pulses`: split a `sendir` string on commas; field 3 is the
carrier frequency in Hz, fields from 6 on are half-cycle counts converted
through `round(c * (1_000_000 / freq))` in double precision. -/
def gc_to_pulses (s : String) : Except PyExc (List ℤ) :=
  let parts := splitOnChar ',' (stripChars s.data)
  if !leadsWith "sendir".data (lowerChars (parts.headD [])) then
    .error (.valueError "Not a Global Caché sendir string")
  else
    match parts.get? 3 with
    | none => .error (.indexError "list index out of range")
    | some f3 =>
      match pyInt f3 with
      | none =>
        .error (.valueError ("invalid literal for int() with base 10: '" ++ ⟨f3⟩ ++ "'"))
      | some freq =>
        if freq = 0 then .error (.zeroDivisionError "division by zero")
        else
          let unit_micros := ddiv (dOfInt 1000000) (dOfInt freq)
          (pyIntAll (parts.drop 6)).map fun counts =>
            counts.map fun c => pyRound (dmul (dOfInt c) unit_micros)

/- ### `ir_converter.py`: NEC custom builder -/

/-- `nec_to_pulses`, body after field parsing: fixed 560 µs tick; header
mark/space, per-bit mark + value-dependent space, stop mark, then a gap
filling the 108 000 µs frame if positive; then `repeat_count` fixed repeat
frames shaped the same way. -/
def nec_pulses (code : ℕ) (nbits : ℕ) (repeat_count : ℕ) (lsb_first : Bool) : List ℤ :=
  let tick : ℤ := 560
  let header_mark := 16 * tick
  let header_space := 8 * tick
  let one_space := 3 * tick
  let zero_space := 1 * tick
  let bits := (List.range nbits).flatMap fun i =>
    let bit := if lsb_first then (code >>> i) &&& 1 else (code >>> (nbits - 1 - i)) &&& 1
    [tick, if bit = 1 then one_space else zero_space]
  let pulses := header_mark :: header_space :: bits ++ [tick]
  let frame_len : ℤ := 108000
  let gap := frame_len - pulses.sum
  let pulses := if 0 < gap then pulses ++ [gap] else pulses
  let rep := [16 * tick, 4 * tick, tick]
  let rep_gap := frame_len - rep.sum
  let rep := if 0 < rep_gap then rep ++ [rep_gap] else rep
  pulses ++ (List.replicate repeat_count rep).flatten

/-- `nec_to_pulses`, field parsing: `"<protocol>;<hex>;<bits>;<repeat>"`
with protocol 3 required; every parse failure is wrapped in a single
`ValueError` (the wrapped cause text of the Python message is elided). -/
def nec_to_pulses (s : String) (lsb_first : Bool) : Except PyExc (List ℤ) :=
  let bad : Except PyExc (List ℤ) :=
    .error (.valueError ("Invalid code string '" ++ s ++ "'"))
  match splitOnChar ';' s.data with
  | [proto, hex_code, nbits, repeat_count] =>
    match pyInt proto, pyIntHex hex_code, pyInt nbits, pyInt repeat_count with
    | some p, some code, some nb, some rc =>
      if p ≠ 3 then bad
      else .ok (nec_pulses code nb.toNat rc.toNat lsb_first)
    | _, _, _, _ => bad
  | _ => bad

/- ### `ir_converter.py`: PRONTO parsing -/

/-- 16-bit words from groups of four hex digits (the caller has already
checked that the length is a multiple of 4). -/
def hexWords : List Char → List ℕ
  | a :: b :: c :: d :: rest =>
    (hexVal a * 4096 + hexVal b * 256 + hexVal c * 16 + hexVal d) :: hexWords rest
  | _ => []

/-- `_parse_pronto_words`: drop non-hex characters, require a positive
length that is a multiple of 4, read 4-digit words. -/
def parse_pronto_words (s : String) : Except PyExc (List ℕ) :=
  let cleaned := clean_hex s.data
  if cleaned.length = 0 ∨ cleaned.length % 4 ≠ 0 then
    .error (.valueError "PRONTO: hex length must be positive and multiple of 4")
  else .ok (hexWords cleaned)

/-- `_split_pronto`: split words into frequency word, intro timing units
and repeat timing units, with the forgiving reallocation policy. -/
def split_pronto (words : List ℕ) : Except PyExc (ℕ × List ℕ × List ℕ) :=
  if words.length < 4 then .error (.valueError "PRONTO: too few words")
  else if words.headD 0 ≠ 0 then
    .error (.valueError "PRONTO: only 0000 format supported")
  else
    let freq_word := words.getD 1 0
    let one_pairs := words.getD 2 0
    let rep_pairs := words.getD 3 0
    let timings0 := words.drop 4
    let timings := if timings0.length % 2 = 1 then timings0.dropLast else timings0
    let declared_pairs := one_pairs + rep_pairs
    let available_pairs := timings.length / 2
    if available_pairs = 0 then .error (.valueError "PRONTO: no timing values")
    else if declared_pairs = 0 then .ok (freq_word, [], timings)
    else if declared_pairs ≤ available_pairs then
      .ok (freq_word, timings.take (one_pairs * 2), (timings.drop (one_pairs * 2)).take (rep_pairs * 2))
    else
      let intro_units_len := min (one_pairs * 2) timings.length
      .ok (freq_word, timings.take intro_units_len, timings.drop intro_units_len)

/-- The binary64 value of the literal `0.241246` (the nearest double to
the exact decimal `241246 / 10^6`). -/
def lit_0_241246 : DFloat := ddiv (dOfNat 241246) (dOfNat 1000000)

/-- `units_to_us` (inner helper of `pronto_to_pulses`): convert PRONTO
timing units to microseconds with `max(1, int(round(u * unit_us)))`, where
`unit_us = freq_word * 0.241246` is computed in double precision. -/
def units_to_us (freq_word : ℕ) (seq : List ℕ) : List ℤ :=
  let unit_us := dmul (dOfNat freq_word) lit_0_241246
  seq.map fun u => max 1 (pyRound (dmul (dOfNat u) unit_us))

/-- `pronto_to_pulses`, word-level core (everything after
`_parse_pronto_words`): split, convert, optionally expand the repeat
segment towards `hold_ms`, force an even pulse count, append trailing
silence.  The source guards `pulses.extend(units_to_us(intro_units))` with
`if intro_units:`; extending by the empty conversion is a no-op, so the
guard is dropped here.  `Int.fdiv` is Python's floor division `//`, and
`freq_word ≤ 0` collapses to `freq_word = 0` since parsed words are
naturals. -/
def pronto_pulses_core (hold_ms trailing_silence_us repeat_cap : ℤ)
    (repeat_flag ensure_even add_trailing_silence : Bool)
    (words : List ℕ) : Except PyExc (List ℤ) :=
  match split_pronto words with
  | .error e => .error e
  | .ok (freq_word, intro_units, repeat_units) =>
    if freq_word = 0 then .error (.valueError "PRONTO: invalid frequency word")
    else
      let intro := units_to_us freq_word intro_units
      let body :=
        if repeat_units ≠ [] then
          let rep_us := units_to_us freq_word repeat_units
          let reps : ℤ :=
            if repeat_flag ∧ 0 < hold_ms then
              let target_us := hold_ms * 1000
              let period := if rep_us.sum = 0 then 1 else rep_us.sum
              let r0 : ℤ :=
                if period < target_us then Int.fdiv (target_us + period - 1) period else 1
              min (max r0 1) (max 1 repeat_cap)
            else 1
          (List.replicate reps.toNat rep_us).flatten
        else if intro_units = [] then
          let body0 := words.drop 4
          let body1 := if body0.length % 2 = 1 then body0.dropLast else body0
          units_to_us freq_word body1
        else []
      let pulses := intro ++ body
      let pulses := if ensure_even ∧ pulses.length % 2 = 1 then pulses ++ [SMALL_OFF_GAP_US] else pulses
      let pulses :=
        if add_trailing_silence ∧ 0 < trailing_silence_us then pulses ++ [trailing_silence_us]
        else pulses
      .ok pulses

/-- `pronto_to_pulses`: parse the PRONTO hex string, then run the core. -/
def pronto_to_pulses (hold_ms trailing_silence_us repeat_cap : ℤ)
    (repeat_flag ensure_even add_trailing_silence : Bool)
    (pronto_hex : String) : Except PyExc (List ℤ) :=
  (parse_pronto_words pronto_hex).bind
    (pronto_pulses_core hold_ms trailing_silence_us repeat_cap
      repeat_flag ensure_even add_trailing_silence)

/-- `pronto_to_pulses` with every keyword argument at its default. -/
def pronto_to_pulses_default : String → Except PyExc (List ℤ) :=
  pronto_to_pulses DEFAULT_HOLD_MS DEFAULT_TRAILING_SILENCE_US MAX_REPEAT_EXPANSIONS
    true true true

/- ### `ir_converter.py`: dispatcher -/

/-- Result of `convert_to_broadlink` for a string input: either the raw
passthrough bytes, or a pulse list handed to the external
`broadlink.remote.pulses_to_data` encoder (which is a third-party library
function, represented here only by the pulses passed to it). -/
inductive BroadlinkResult where
  | raw (bytes : List ℕ)
  | encoded (pulses : List ℤ)
deriving DecidableEq, Repr

/-- `_normalize_non_pronto`, string branch. -/
def normalize_non_pronto (t : List Char) : Except PyExc (List ℤ) :=
  if leadsWith "sendir".data (lowerChars t) then gc_to_pulses ⟨t⟩
  else if leadsWith "3;".data (lowerChars t) then nec_to_pulses ⟨t⟩ false
  else .error (.valueError "Unrecognized IR format string (expected sendir/NEC/list for non-PRONTO)")

/-- `convert_to_broadlink` for a string input, with no extra keyword
arguments: raw-hex passthrough first, then PRONTO, then the other text
formats. -/
def convert_to_broadlink (code : String) : Except PyExc BroadlinkResult :=
  let stripped := stripChars code.data
  if looks_like_broadlink_hex stripped then
    (hex_to_broadlink ⟨stripped⟩).map .raw
  else if leadsWith "0000".data stripped then
    (pronto_to_pulses_default ⟨stripped⟩).map .encoded
  else (normalize_non_pronto stripped).map .encoded

/- ### `test_pronto_conversion.py`: the in-repository reference encoder -/

/-- Tick count of one pulse in `lirc_pulses_to_broadlink_payload`:
`round((us * 269) / 8192)` with a floor of 1.  For `us < 2^45` the Python
double `(us * 269) / 8192` is exact (division by a power of two), so the
rounding is exactly round-half-to-even on the rational `us * 269 / 8192`. -/
def pulse_ticks (us : ℕ) : ℕ :=
  let ticks := halfEvenNat (us * 269) 8192
  if ticks = 0 then 1 else ticks

/-- Byte emission for one pulse in `lirc_pulses_to_broadlink_payload`:
one byte for tick counts below 256, otherwise `0x00` then
`(ticks >> 8) & 0xff` and `ticks & 0xff`. -/
def pulse_bytes (us : ℕ) : List ℕ :=
  let ticks := pulse_ticks us
  if ticks < 256 then [ticks]
  else [0x00, (ticks >>> 8) &&& 0xff, ticks &&& 0xff]

/-- Payload accumulation of `lirc_pulses_to_broadlink_payload`, raising on
a negative pulse. -/
def lirc_payload : List ℤ → Except PyExc (List ℕ)
  | [] => .ok []
  | us :: rest =>
    if us < 0 then .error (.valueError "Negative pulse not allowed")
    else (lirc_payload rest).map (pulse_bytes us.toNat ++ ·)

/-- `lirc_pulses_to_broadlink_payload`: header `26 00`, two-byte
little-endian payload length, payload, trailer `0d 05`.  (`to_bytes(2,
'little')` raises `OverflowError` for payloads of 2^16 bytes or more.) -/
def lirc_pulses_to_broadlink_payload (pulses_us : List ℤ) : Except PyExc (List ℕ) :=
  match lirc_payload pulses_us with
  | .error e => .error e
  | .ok pulse_buf =>
    if 65536 ≤ pulse_buf.length then
      .error (.overflowError "int too big to convert")
    else
      .ok ([0x26, 0x00] ++ [pulse_buf.length % 256, pulse_buf.length / 256]
        ++ pulse_buf ++ [0x0d, 0x05])

/- ### Spec-modelled packet encoder (§4.5)

The repository's own packet encoder and validator (the richer
`hex_to_broadlink` / `pronto_to_broadlink` / `custom_to_broadlink` module
exporting `validate_broadlink_packet` and `IR_COMMAND_TYPE`, imported by
`test_ir_converter.py` and `test_integration.py`) is not among the source
files; only its tests are.  The packet-assembly step is therefore modelled
from the spec. -/

/-- Modelled from the spec: packet assembly of the missing in-repository
encoder (spec §4.5) — 1-byte command type `0x26`, 1-byte repeat indicator
`0`, 2-byte little-endian payload length, the payload, then zero padding
to the next multiple of 16 bytes (the invariant `test_integration.py`
asserts at lines 250–262). -/
def broadlink_assemble (payload : List ℕ) : List ℕ :=
  let base := [0x26, 0x00, payload.length % 256, payload.length / 256 % 256] ++ payload
  base ++ List.replicate ((16 - base.length % 16) % 16) 0

/-- Modelled from the spec: per-pulse tick conversion of the missing
encoder (spec §4.5).  The spec's "device tick unit = 269/8192 µs
(~32.84 µs)" is internally inconsistent (269/8192 ≈ 0.0328); the tick
arithmetic of the in-repository reference encoder,
`ticks = d * 269 / 8192` floored, is used, with the spec's 0–65535 clamp.
Claim C1 depends only on the byte count, not on these tick values. -/
def spec_encode_pulse (d : ℕ) : List ℕ :=
  let ticks := min (d * 269 / 8192) 65535
  if ticks < 256 then [ticks] else [0x00, ticks / 256, ticks % 256]

/-- Modelled from the spec: the full missing encoder — encode every pulse,
concatenate, assemble the padded packet (spec §4.5). -/
def spec_encode (pulses : List ℕ) : List ℕ :=
  broadlink_assemble (pulses.flatMap spec_encode_pulse)

/- ### Claim-side definitions (stated from the claims' wording, for
comparison with the source embeddings above) -/

/-- Complete (mark, space) pairs of a timing word list; a dangling
unpaired trailing word is dropped. -/
def chunk2 : List ℕ → List (List ℕ)
  | a :: b :: rest => [a, b] :: chunk2 rest
  | _ => []

/-- Claim C2's description of the tolerant PRONTO split, phrased over
complete timing pairs: with enough pairs, exactly `intro_count` pairs then
`repeat_count` pairs (excess trimmed); with fewer, up to `intro_count`
pairs to the intro and the remainder to the repeat; with both declared
counts zero, the whole even-length body is the repeat segment. -/
def c2_split (words : List ℕ) : ℕ × List ℕ × List ℕ :=
  let freq := words.getD 1 0
  let ic := words.getD 2 0
  let rc := words.getD 3 0
  let pairs := chunk2 (words.drop 4)
  if ic + rc = 0 then (freq, [], pairs.flatten)
  else if ic + rc ≤ pairs.length then
    (freq, (pairs.take ic).flatten, ((pairs.drop ic).take rc).flatten)
  else (freq, (pairs.take ic).flatten, (pairs.drop ic).flatten)

/-- Round half up of `p / q` (`q ≥ 1`): the rounding mode claim C4 names. -/
def roundHalfUp (p q : ℕ) : ℕ :=
  if q ≤ 2 * (p % q) then p / q + 1 else p / q

/-- Claim C4's conversion: round half up of the exact rational
`u * freq_word * 0.241246`, clamped below to 1 µs. -/
def c4_claim_us (freq_word u : ℕ) : ℕ :=
  max 1 (roundHalfUp (u * freq_word * 241246) 1000000)

/-- Amended claim C4's conversion: `max(1, round(u * unit_us))` where
`unit_us = freq_word * 0.241246` and both products are IEEE-754 binary64
multiplications, with Python's `round` (ties to even). -/
def c4_amended_us (freq_word u : ℕ) : ℤ :=
  max 1 (pyRound (dmul (dOfNat u) (dmul (dOfNat freq_word) lit_0_241246)))

/-- Claim C5's tick count: `floor(d / tick_us)` with `tick_us = 269/8192`
µs — that is, `⌊d * 8192 / 269⌋` — clamped to 0–65535. -/
def c5_claim_ticks (d : ℕ) : ℕ := min (d * 8192 / 269) 65535

/-- Claim C5's byte emission for one duration. -/
def c5_claim_bytes (d : ℕ) : List ℕ :=
  let t := c5_claim_ticks d
  if t < 256 then [t] else [0x00, t / 256, t % 256]

/-- Amended claim C5's tick count: round half to even of the exact
rational `d * 269 / 8192` (the value of the double `(d * 269) / 8192` for
every realistic duration), clamped below to 1; no upper clamp. -/
def c5_amended_ticks (d : ℕ) : ℕ :=
  let q := d * 269 / 8192
  let r := d * 269 % 8192
  max 1 (if 4096 < r then q + 1 else if r < 4096 then q else if q % 2 = 0 then q else q + 1)

/-- Amended claim C5's byte emission: one byte below 256, otherwise
`0x00` then the big-endian 16-bit tick count with the high byte reduced
modulo 256. -/
def c5_amended_bytes (d : ℕ) : List ℕ :=
  let t := c5_amended_ticks d
  if t < 256 then [t] else [0x00, t / 256 % 256, t % 256]

/-- Claim C6's i-th transmitted bit (MSB first) of the 32-bit NEC value. -/
def c6_bit (code i : ℕ) : Bool := (code >>> (31 - i)) &&& 1 = 1

/-- Claim C6's main frame before the trailing gap: header mark `16×560`,
header space `8×560`, per bit a `560` µs mark then a `3×560` µs (one) or
`560` µs (zero) space, and a final `560` µs mark. -/
def c6_main_base (code : ℕ) : List ℤ :=
  16 * 560 :: 8 * 560 ::
    ((List.range 32).flatMap fun i => [560, if c6_bit code i then 3 * 560 else 560]) ++ [560]

/-- Claim C6's main frame: the base plus a trailing gap summing the frame
to exactly 108 000 µs. -/
def c6_main_frame (code : ℕ) : List ℤ :=
  c6_main_base code ++ [108000 - (c6_main_base code).sum]

/-- Claim C6's repeat frame: `16×560` mark, `4×560` space, `560` mark and
a trailing gap summing to exactly 108 000 µs. -/
def c6_repeat_frame : List ℤ :=
  [16 * 560, 4 * 560, 560, 108000 - (16 * 560 + 4 * 560 + 560)]

/- ### Helper lemmas -/

theorem and_255_eq_mod (n : ℕ) : n &&& 255 = n % 256 :=
  Nat.and_pow_two_sub_one_eq_mod n 8

theorem shiftRight_8_eq_div (n : ℕ) : n >>> 8 = n / 256 := by omega

theorem halfEvenNat_8192 (n : ℕ) :
    halfEvenNat n 8192 =
      (if 4096 < n % 8192 then n / 8192 + 1
       else if n % 8192 < 4096 then n / 8192
       else if n / 8192 % 2 = 0 then n / 8192 else n / 8192 + 1) := by
  unfold halfEvenNat
  dsimp only
  split_ifs <;> omega

theorem ite_zero_one_eq_max (t : ℕ) : (if t = 0 then 1 else t) = max 1 t := by
  rcases Nat.eq_zero_or_pos t with h | h
  · subst h
    rfl
  · rw [if_neg (by omega)]
    omega

theorem pulse_ticks_eq_amended (d : ℕ) : pulse_ticks d = c5_amended_ticks d := by
  unfold pulse_ticks c5_amended_ticks
  dsimp only
  rw [halfEvenNat_8192, ite_zero_one_eq_max]

theorem pulse_bytes_eq_amended (d : ℕ) : pulse_bytes d = c5_amended_bytes d := by
  unfold pulse_bytes c5_amended_bytes
  dsimp only
  rw [pulse_ticks_eq_amended]
  rw [and_255_eq_mod, and_255_eq_mod, shiftRight_8_eq_div]

theorem lirc_payload_of_nonneg (l : List ℕ) :
    lirc_payload (l.map fun n => (n : ℤ)) = .ok (l.flatMap pulse_bytes) := by
  induction l with
  | nil => rfl
  | cons n t ih =>
    show lirc_payload ((n : ℤ) :: t.map fun n => (n : ℤ)) = _
    unfold lirc_payload
    rw [if_neg (by omega), ih]
    rfl

/- ### Claim theorems -/

/-- C1: for every input pulse list, the packet produced by the
(spec-modelled) encoder has total byte length a multiple of 16, and the
4-byte header plus the payload, zero-padded up to the next multiple of 16,
equals the total packet length. -/
theorem C1_packet_length_mult16 (pulses : List ℕ) :
    (spec_encode pulses).length % 16 = 0
    ∧ (4 + (pulses.flatMap spec_encode_pulse).length + 15) / 16 * 16
        = (spec_encode pulses).length := by
  unfold spec_encode broadlink_assemble
  simp only [List.length_append, List.length_replicate, List.length_cons,
    List.length_nil]
  omega

/-- C4 counterexample: at frequency word 62500 and timing unit 12 the code
yields 180934 µs while round-half-up of the exact product
`12 * 62500 * 0.241246 = 180934.5` yields 180935 µs (the double product is
exactly 180934.5 and Python's `round` takes the tie to even). -/
theorem C4_cex_round_half_up :
    units_to_us 62500 [12] = [180934]
    ∧ c4_claim_us 62500 12 = 180935
    ∧ units_to_us 62500 [12] ≠ [(c4_claim_us 62500 12 : ℤ)] := by
  refine ⟨by decide, by decide, by decide⟩

/-- C4 (amended): each timing unit `u` is converted to
`max(1, round(u * unit_us))` with `unit_us = freq_word * 0.241246`, both
products computed in IEEE-754 binary64 and `round` being Python's
round-half-to-even; the result is clamped below to 1 µs. -/
theorem C4_units_conversion (freq_word : ℕ) (seq : List ℕ) :
    units_to_us freq_word seq = seq.map (c4_amended_us freq_word)
    ∧ ∀ x ∈ units_to_us freq_word seq, 1 ≤ x := by
  constructor
  · rfl
  · intro x hx
    unfold units_to_us at hx
    obtain ⟨u, -, rfl⟩ := List.mem_map.mp hx
    exact le_max_left _ _

/-- C4 witness: the conversion theorem applied at frequency word 108 and
unit 153. -/
theorem C4_units_conversion_witness :
    units_to_us 108 [153] = [153].map (c4_amended_us 108) ∧ (1 : ℤ) ≤ 3986 :=
  ⟨(C4_units_conversion 108 [153]).1,
    (C4_units_conversion 108 [153]).2 3986 (by decide)⟩

/-- C5 counterexample: for the duration 32 µs the code emits the single
byte `0x01`, not the bytes `0x00 0x03 0xCE` demanded by the claim's
`ticks = ⌊32 / (269/8192)⌋ = 974` reading. -/
theorem C5_cex_tick_formula :
    pulse_bytes 32 = [1]
    ∧ c5_claim_bytes 32 = [0x00, 0x03, 0xCE]
    ∧ pulse_bytes 32 ≠ c5_claim_bytes 32 := by
  refine ⟨by decide, by decide, by decide⟩

/-- C5 (amended): for every non-negative duration `d` the encoder computes
`ticks` as round-half-to-even of `d * 269 / 8192` clamped below to 1 (no
upper clamp), emits one byte for `ticks < 256` and otherwise `0x00`
followed by the big-endian 16-bit tick count (high byte reduced mod 256);
a tick count of exactly 256 is emitted in the 3-byte form. -/
theorem C5_tick_encoding (d : ℕ) (l : List ℕ) :
    pulse_bytes d = c5_amended_bytes d
    ∧ (c5_amended_ticks d = 256 → pulse_bytes d = [0x00, 0x01, 0x00])
    ∧ lirc_payload (l.map fun n => (n : ℤ)) = .ok (l.flatMap pulse_bytes) := by
  refine ⟨pulse_bytes_eq_amended d, ?_, lirc_payload_of_nonneg l⟩
  intro h256
  rw [pulse_bytes_eq_amended]
  unfold c5_amended_bytes
  rw [h256]
  decide

/-- C5 witness: at 7781 µs the tick count is exactly 256 and the 3-byte
form is emitted; the payload of the pulse list `[32]` is the single byte
`0x01`. -/
theorem C5_tick_encoding_witness :
    c5_amended_ticks 7781 = 256
    ∧ pulse_bytes 7781 = [0x00, 0x01, 0x00]
    ∧ lirc_payload (([32] : List ℕ).map fun n => (n : ℤ))
        = .ok (([32] : List ℕ).flatMap pulse_bytes) :=
  ⟨by decide, (C5_tick_encoding 7781 [32]).2.1 (by decide),
    (C5_tick_encoding 7781 [32]).2.2⟩

theorem flatMap_pair_sum_le (n : ℕ) (f : ℕ → ℤ) (hf : ∀ i, f i ≤ 1680) :
    ((List.range n).flatMap fun i => [(560 : ℤ), f i]).sum ≤ 2240 * n := by
  induction n with
  | zero => simp
  | succ k ih =>
    rw [List.range_succ]
    simp only [List.flatMap_append, List.flatMap_cons, List.flatMap_nil,
      List.sum_append, List.append_nil, List.sum_cons, List.sum_nil]
    have := hf k
    push_cast
    linarith

/-- C6: for every NEC code value and repeat count, the builder returns the
claimed main frame — header mark `16×560`, header space `8×560`, 32
MSB-first bits as `560` µs marks with `3×560`/`560` µs spaces, a final
`560` µs mark and a gap filling the frame to exactly 108 000 µs — followed
by exactly `r` repeat frames `16×560` mark, `4×560` space, `560` mark and
a gap, each also summing to exactly 108 000 µs. -/
theorem C6_nec_frames (code r : ℕ) :
    nec_pulses code 32 r false
        = c6_main_frame code ++ (List.replicate r c6_repeat_frame).flatten
    ∧ (c6_main_frame code).sum = 108000
    ∧ c6_repeat_frame.sum = 108000 := by
  have hb : ∀ i, (if c6_bit code i then (3 * 560 : ℤ) else 560) ≤ 1680 := by
    intro i
    split <;> norm_num
  have hsum : (c6_main_base code).sum ≤ 85680 := by
    unfold c6_main_base
    simp only [List.sum_cons, List.sum_append, List.sum_nil]
    have := flatMap_pair_sum_le 32 (fun i => if c6_bit code i then (3 * 560 : ℤ) else 560) hb
    norm_num at this ⊢
    linarith
  have hpulses : (((16 * 560 : ℤ) :: (8 * 560 : ℤ) ::
        (List.range 32).flatMap fun i =>
          [(560 : ℤ), if (if (false = true) then (code >>> i) &&& 1
              else (code >>> (32 - 1 - i)) &&& 1) = 1 then 3 * 560 else 1 * 560]) ++ [560])
      = c6_main_base code := by
    unfold c6_main_base
    refine congrArg (· ++ [560]) (congrArg _ (congrArg _
      (congrArg _ (funext fun i => ?_))))
    simp only [Bool.false_eq_true, if_false, c6_bit, decide_eq_true_eq, one_mul,
      show 32 - 1 - i = 31 - i from by omega]
  refine ⟨?_, ?_, by decide⟩
  · unfold nec_pulses
    dsimp only
    rw [hpulses]
    rw [if_pos (show (0 : ℤ) < 108000 - (c6_main_base code).sum from by omega)]
    rw [if_pos (show (0 : ℤ) < 108000 - ([16 * 560, 4 * 560, 560] : List ℤ).sum from by decide)]
    rfl
  · unfold c6_main_frame
    rw [List.sum_append]
    simp

theorem chunk2_length (l : List ℕ) : (chunk2 l).length = l.length / 2 := by
  induction l using chunk2.induct with
  | case1 a b rest ih =>
    simp [chunk2, ih]
    omega
  | case2 l h =>
    cases l with
    | nil => simp [chunk2]
    | cons a t =>
      cases t with
      | nil => simp [chunk2]
      | cons b r => exact absurd rfl (h a b r)

theorem chunk2_flatten (l : List ℕ) :
    (chunk2 l).flatten = l.take (2 * (l.length / 2)) := by
  induction l using chunk2.induct with
  | case1 a b rest ih =>
    show ([a, b] :: chunk2 rest).flatten = _
    rw [List.flatten_cons, ih]
    have h2 : 2 * ((a :: b :: rest).length / 2) = 2 * (rest.length / 2) + 1 + 1 := by
      simp only [List.length_cons]
      omega
    rw [h2, List.take_succ_cons, List.take_succ_cons]
    rfl
  | case2 l h =>
    cases l with
    | nil => simp [chunk2]
    | cons a t =>
      cases t with
      | nil => simp [chunk2]
      | cons b r => exact absurd rfl (h a b r)

theorem chunk2_mem_length (l : List ℕ) (c : List ℕ) (h : c ∈ chunk2 l) :
    c.length = 2 := by
  induction l using chunk2.induct with
  | case1 a b rest ih =>
    rcases (List.mem_cons.mp h) with rfl | h2
    · rfl
    · exact ih h2
  | case2 l hl =>
    cases l with
    | nil => simp [chunk2] at h
    | cons a t =>
      cases t with
      | nil => simp [chunk2] at h
      | cons b r => exact absurd rfl (hl a b r)

theorem flatten_take_pairs (L : List (List ℕ)) (h : ∀ c ∈ L, c.length = 2) :
    ∀ k : ℕ, (L.take k).flatten = L.flatten.take (2 * k) := by
  induction L with
  | nil => simp
  | cons c t ih =>
    intro k
    cases k with
    | zero => simp
    | succ m =>
      have hc : c.length = 2 := h c (List.mem_cons_self c t)
      rw [List.take_succ_cons, List.flatten_cons, List.flatten_cons,
        show 2 * (m + 1) = c.length + 2 * m from by omega,
        List.take_append, ih (fun x hx => h x (List.mem_cons_of_mem _ hx)) m]

theorem flatten_drop_pairs (L : List (List ℕ)) (h : ∀ c ∈ L, c.length = 2) :
    ∀ k : ℕ, (L.drop k).flatten = L.flatten.drop (2 * k) := by
  induction L with
  | nil => simp
  | cons c t ih =>
    intro k
    cases k with
    | zero => simp
    | succ m =>
      have hc : c.length = 2 := h c (List.mem_cons_self c t)
      rw [List.drop_succ_cons, List.flatten_cons,
        show 2 * (m + 1) = c.length + 2 * m from by omega,
        List.drop_append, ih (fun x hx => h x (List.mem_cons_of_mem _ hx)) m]

theorem trunc_eq_take (l : List ℕ) :
    (if l.length % 2 = 1 then l.dropLast else l) = l.take (2 * (l.length / 2)) := by
  split_ifs with h
  · rw [List.dropLast_eq_take]
    congr 1
    omega
  · rw [show 2 * (l.length / 2) = l.length from by omega, List.take_length]

theorem take_min_length (l : List ℕ) (n : ℕ) : l.take (min n l.length) = l.take n := by
  rcases le_total n l.length with h | h
  · rw [min_eq_left h]
  · rw [min_eq_right h, List.take_length, List.take_of_length_le h]

theorem drop_min_length (l : List ℕ) (n : ℕ) : l.drop (min n l.length) = l.drop n := by
  rcases le_total n l.length with h | h
  · rw [min_eq_left h]
  · rw [min_eq_right h, List.drop_length, List.drop_of_length_le h]

/-- C2: for every word list with at least 4 words, first word 0 and at
least one complete timing pair, the splitter partitions the body exactly
as the claim's pair-wise description `c2_split` says: with enough pairs,
exactly `intro_count` then `repeat_count` pairs (excess trimmed); with
fewer, up to `intro_count` pairs to the intro and the remainder to the
repeat; with both counts zero, the whole even-length body as repeat. -/
theorem C2_tolerant_split (words : List ℕ) (h4 : 4 ≤ words.length)
    (h0 : words.headD 0 = 0) (hpair : 2 ≤ (words.drop 4).length) :
    split_pronto words = .ok (c2_split words) := by
  unfold split_pronto c2_split
  dsimp only
  rw [if_neg (by omega), if_neg (not_not_intro h0)]
  rw [trunc_eq_take (words.drop 4)]
  have hmem := chunk2_mem_length (words.drop 4)
  have hchl := chunk2_length (words.drop 4)
  have hfl := chunk2_flatten (words.drop 4)
  have hlen_t : ((words.drop 4).take (2 * ((words.drop 4).length / 2))).length
      = 2 * ((words.drop 4).length / 2) := by
    rw [List.length_take]
    omega
  rw [if_neg (by omega)]
  by_cases hD : words.getD 2 0 + words.getD 3 0 = 0
  · rw [if_pos hD, if_pos hD, hfl]
  · rw [if_neg hD, if_neg hD]
    by_cases hA : words.getD 2 0 + words.getD 3 0 ≤ (chunk2 (words.drop 4)).length
    · rw [if_pos (by omega), if_pos hA]
      rw [flatten_take_pairs _ hmem, hfl,
        flatten_take_pairs _ (fun c hc => hmem c (List.mem_of_mem_drop hc)),
        flatten_drop_pairs _ hmem, hfl]
      rw [Nat.mul_comm (words.getD 2 0) 2, Nat.mul_comm (words.getD 3 0) 2]
    · rw [if_neg (by omega), if_neg hA]
      rw [flatten_take_pairs _ hmem, hfl, flatten_drop_pairs _ hmem, hfl]
      rw [take_min_length, drop_min_length]
      rw [Nat.mul_comm (words.getD 2 0) 2]

/-- C2 witness: the splitter theorem applied at a concrete word list with
intro count 2, repeat count 1 and 3 available pairs. -/
theorem C2_tolerant_split_witness :
    split_pronto [0, 108, 2, 1, 10, 20, 30, 40, 50, 60]
        = .ok (c2_split [0, 108, 2, 1, 10, 20, 30, 40, 50, 60])
    ∧ c2_split [0, 108, 2, 1, 10, 20, 30, 40, 50, 60]
        = (108, [10, 20, 30, 40], [50, 60]) :=
  ⟨C2_tolerant_split _ (by decide) (by decide) (by decide), by decide⟩

/-- C9: on every accepted word list both returned segments have even
length and their concatenation is a prefix of the timing body
`words[4:]`. -/
theorem C9_split_even_prefix (words : List ℕ) (h4 : 4 ≤ words.length)
    (h0 : words.headD 0 = 0) (hpair : 2 ≤ (words.drop 4).length) :
    ∃ fw intro rep rest, split_pronto words = .ok (fw, intro, rep)
      ∧ intro.length % 2 = 0 ∧ rep.length % 2 = 0
      ∧ words.drop 4 = (intro ++ rep) ++ rest := by
  unfold split_pronto
  dsimp only
  rw [if_neg (by omega), if_neg (not_not_intro h0)]
  rw [trunc_eq_take (words.drop 4)]
  set t0 := words.drop 4 with ht0
  set t := t0.take (2 * (t0.length / 2)) with ht
  have hlen_t : t.length = 2 * (t0.length / 2) := by
    rw [ht, List.length_take]
    omega
  have hsplit0 : t ++ t0.drop (2 * (t0.length / 2)) = t0 := List.take_append_drop _ t0
  rw [if_neg (by omega)]
  by_cases hD : words.getD 2 0 + words.getD 3 0 = 0
  · rw [if_pos hD]
    exact ⟨_, [], t, t0.drop (2 * (t0.length / 2)), rfl, by simp, by omega,
      by simp [hsplit0]⟩
  · rw [if_neg hD]
    by_cases hA : words.getD 2 0 + words.getD 3 0 ≤ t.length / 2
    · rw [if_pos hA]
      refine ⟨_, _, _,
        t.drop (words.getD 2 0 * 2 + words.getD 3 0 * 2) ++ t0.drop (2 * (t0.length / 2)),
        rfl, ?_, ?_, ?_⟩
      · rw [List.length_take]
        omega
      · rw [List.length_take, List.length_drop]
        omega
      · refine (Eq.trans ?_ hsplit0).symm
        rw [← List.append_assoc, ← List.take_add, List.take_append_drop]
    · rw [if_neg hA]
      refine ⟨_, _, _, t0.drop (2 * (t0.length / 2)), rfl, ?_, ?_, ?_⟩
      · rw [List.length_take]
        omega
      · rw [List.length_drop]
        omega
      · rw [List.take_append_drop, hsplit0]

/-- C9 witness: the invariant applied to a word list whose body has a
dangling trailing word. -/
theorem C9_split_even_prefix_witness :
    split_pronto [0, 108, 1, 3, 10, 20, 30, 40, 50]
        = .ok (108, [10, 20], [30, 40])
    ∧ ([10, 20] : List ℕ).length % 2 = 0
    ∧ ([30, 40] : List ℕ).length % 2 = 0
    ∧ ([0, 108, 1, 3, 10, 20, 30, 40, 50] : List ℕ).drop 4
        = (([10, 20] : List ℕ) ++ [30, 40]) ++ [50] := by
  obtain ⟨fw, intro, rep, rest, h1, h2, h3, h4⟩ :=
    C9_split_even_prefix [0, 108, 1, 3, 10, 20, 30, 40, 50]
      (by decide) (by decide) (by decide)
  have hval : split_pronto [0, 108, 1, 3, 10, 20, 30, 40, 50]
      = .ok (108, [10, 20], [30, 40]) := by decide
  rw [hval] at h1
  simp only [Except.ok.injEq, Prod.mk.injEq] at h1
  obtain ⟨rfl, rfl, rfl⟩ := h1
  have hrest : rest = [50] := by
    simpa using h4.symm
  subst hrest
  exact ⟨hval, h2, h3, h4⟩

theorem units_to_us_mem_pos (f : ℕ) (seq : List ℕ) :
    ∀ x ∈ units_to_us f seq, (1 : ℤ) ≤ x := by
  intro x hx
  obtain ⟨u, -, rfl⟩ := List.mem_map.mp hx
  exact le_max_left _ _

theorem mem_flatten_replicate {n : ℕ} {l : List ℤ} {x : ℤ}
    (h : x ∈ (List.replicate n l).flatten) : x ∈ l := by
  obtain ⟨c, hc, hx⟩ := List.mem_flatten.mp h
  rwa [List.eq_of_mem_replicate hc] at hx

theorem mem_append_pos {l₁ l₂ : List ℤ} (h₁ : ∀ x ∈ l₁, (1 : ℤ) ≤ x)
    (h₂ : ∀ x ∈ l₂, (1 : ℤ) ≤ x) : ∀ x ∈ l₁ ++ l₂, (1 : ℤ) ≤ x := by
  intro x hx
  rcases List.mem_append.mp hx with hx | hx
  · exact h₁ x hx
  · exact h₂ x hx

theorem mem_ite_pos {c : Prop} [Decidable c] {l₁ l₂ : List ℤ}
    (h₁ : c → ∀ x ∈ l₁, (1 : ℤ) ≤ x) (h₂ : ¬c → ∀ x ∈ l₂, (1 : ℤ) ≤ x) :
    ∀ x ∈ (if c then l₁ else l₂), (1 : ℤ) ≤ x := by
  split_ifs with h
  · exact h₁ h
  · exact h₂ h

theorem pronto_core_mem_pos (hold ts cap : ℤ) (rf ev ats : Bool)
    (words : List ℕ) (l : List ℤ)
    (h : pronto_pulses_core hold ts cap rf ev ats words = .ok l) :
    ∀ x ∈ l, (1 : ℤ) ≤ x := by
  unfold pronto_pulses_core at h
  cases hs : split_pronto words with
  | error e =>
    rw [hs] at h
    exact absurd h (by simp)
  | ok trip =>
    obtain ⟨fw, introU, repU⟩ := trip
    rw [hs] at h
    dsimp only at h
    by_cases hf : fw = 0
    · rw [if_pos hf] at h
      exact absurd h (by simp)
    rw [if_neg hf] at h
    injection h with hl
    subst hl
    refine mem_ite_pos (fun hc => mem_append_pos ?_ ?_) (fun _ => ?_)
    · refine mem_ite_pos (fun _ => mem_append_pos ?_ ?_) (fun _ => ?_)
      · refine mem_append_pos (units_to_us_mem_pos _ _)
          (mem_ite_pos (fun _ x hx => units_to_us_mem_pos _ _ x (mem_flatten_replicate hx))
            (fun _ => mem_ite_pos (fun _ => units_to_us_mem_pos _ _)
              (fun _ x hx => by simp at hx)))
      · intro x hx
        simp only [List.mem_singleton] at hx
        subst hx
        decide
      · refine mem_append_pos (units_to_us_mem_pos _ _)
          (mem_ite_pos (fun _ x hx => units_to_us_mem_pos _ _ x (mem_flatten_replicate hx))
            (fun _ => mem_ite_pos (fun _ => units_to_us_mem_pos _ _)
              (fun _ x hx => by simp at hx)))
    · intro x hx
      simp only [List.mem_singleton] at hx
      subst hx
      omega
    · refine mem_ite_pos (fun _ => mem_append_pos ?_ ?_) (fun _ => ?_)
      · refine mem_append_pos (units_to_us_mem_pos _ _)
          (mem_ite_pos (fun _ x hx => units_to_us_mem_pos _ _ x (mem_flatten_replicate hx))
            (fun _ => mem_ite_pos (fun _ => units_to_us_mem_pos _ _)
              (fun _ x hx => by simp at hx)))
      · intro x hx
        simp only [List.mem_singleton] at hx
        subst hx
        decide
      · refine mem_append_pos (units_to_us_mem_pos _ _)
          (mem_ite_pos (fun _ x hx => units_to_us_mem_pos _ _ x (mem_flatten_replicate hx))
            (fun _ => mem_ite_pos (fun _ => units_to_us_mem_pos _ _)
              (fun _ x hx => by simp at hx)))

/-- C3 counterexample: for the 2-intro-pair, 0-repeat PRONTO input below,
`pronto_to_pulses` with default parameters does not return exactly the 4
converted intro pulses — the default 105 000 µs trailing silence gap is
appended as a fifth element. -/
theorem C3_cex_default_trailing :
    pronto_to_pulses_default "0000 006C 0002 0000 0099 00AD 000F 0027"
        = .ok [3986, 4507, 391, 1016, 105000]
    ∧ pronto_to_pulses_default "0000 006C 0002 0000 0099 00AD 000F 0027"
        ≠ .ok (units_to_us 108 [153, 173, 15, 39]) := by
  constructor
  · decide
  · decide

/-- C3 (amended): for a PRONTO input declaring `intro_count = 2`,
`repeat_count = 0` with exactly 2 timing pairs, parsing with default
parameters succeeds and returns the 4 converted intro pulses followed by
the default trailing silence gap of 105 000 µs; no repeat expansion. -/
theorem C3_intro_only_plus_trailing (s : String) (f : ℕ) (body : List ℕ)
    (hw : parse_pronto_words s = .ok (0 :: f :: 2 :: 0 :: body))
    (hlen : body.length = 4) (hf : f ≠ 0) :
    pronto_to_pulses_default s = .ok (units_to_us f body ++ [105000]) := by
  obtain ⟨a, b, c, d, rfl⟩ : ∃ a b c d, body = [a, b, c, d] := by
    match body, hlen with
    | [a, b, c, d], _ => exact ⟨a, b, c, d, rfl⟩
  have hsplit : split_pronto (0 :: f :: 2 :: 0 :: [a, b, c, d])
      = .ok (f, [a, b, c, d], []) := by
    unfold split_pronto
    dsimp only
    rw [if_neg (by simp), if_neg (by simp)]
    norm_num [List.getD]
  unfold pronto_to_pulses_default pronto_to_pulses
  rw [hw]
  show pronto_pulses_core _ _ _ _ _ _ _ = _
  unfold pronto_pulses_core
  rw [hsplit]
  dsimp only
  rw [if_neg hf]
  have hnc1 : ¬(([] : List ℕ) ≠ []) := by simp
  have hnc2 : ¬(([a, b, c, d] : List ℕ) = []) := by simp
  rw [if_neg hnc1, if_neg hnc2]
  have hnc3 : ¬(true = true
      ∧ (units_to_us f [a, b, c, d] ++ ([] : List ℤ)).length % 2 = 1) := by
    simp [units_to_us]
  rw [if_neg hnc3]
  have hc4 : true = true ∧ (0 : ℤ) < DEFAULT_TRAILING_SILENCE_US := ⟨rfl, by decide⟩
  rw [if_pos hc4]
  simp [DEFAULT_TRAILING_SILENCE_US]

/-- C3 witness: the amended theorem applied at the concrete counterexample
input. -/
theorem C3_intro_only_plus_trailing_witness :
    parse_pronto_words "0000 006C 0002 0000 0099 00AD 000F 0027"
        = .ok (0 :: 108 :: 2 :: 0 :: [153, 173, 15, 39])
    ∧ pronto_to_pulses_default "0000 006C 0002 0000 0099 00AD 000F 0027"
        = .ok (units_to_us 108 [153, 173, 15, 39] ++ [105000]) :=
  ⟨by decide,
    C3_intro_only_plus_trailing _ 108 [153, 173, 15, 39] (by decide) (by decide)
      (by decide)⟩

/-- C10: every pulse returned by an accepted `pronto_to_pulses` call, for
every parameter assignment, is at least 1 µs; a zero duration never
appears. -/
theorem C10_output_pulses_positive (hold ts cap : ℤ) (rf ev ats : Bool)
    (s : String) (l : List ℤ)
    (h : pronto_to_pulses hold ts cap rf ev ats s = .ok l) :
    ∀ x ∈ l, (1 : ℤ) ≤ x := by
  unfold pronto_to_pulses at h
  cases hp : parse_pronto_words s with
  | error e =>
    rw [hp] at h
    exact absurd h (by simp [Except.bind])
  | ok words =>
    rw [hp] at h
    exact pronto_core_mem_pos hold ts cap rf ev ats words l h

/-- C10 witness: positivity applied to two members of a concrete
conversion (an intro pulse and the trailing silence). -/
theorem C10_output_pulses_positive_witness :
    pronto_to_pulses 300 105000 8 true true true
        "0000 006C 0002 0000 0099 00AD 000F 0027"
        = .ok [3986, 4507, 391, 1016, 105000]
    ∧ (1 : ℤ) ≤ 3986 ∧ (1 : ℤ) ≤ 105000 := by
  have hv : pronto_to_pulses 300 105000 8 true true true
      "0000 006C 0002 0000 0099 00AD 000F 0027"
      = .ok [3986, 4507, 391, 1016, 105000] := by decide
  exact ⟨hv,
    C10_output_pulses_positive 300 105000 8 true true true _ _ hv 3986 (by decide),
    C10_output_pulses_positive 300 105000 8 true true true _ _ hv 105000 (by decide)⟩

/-- C7 counterexample: the bare string `"sendir"` has no field index 3,
and the parser fails with an `IndexError` (an untyped crash in the claim's
terms), not with the claimed `ValueError`. -/
theorem C7_cex_missing_freq_field :
    gc_to_pulses "sendir" = .error (.indexError "list index out of range")
    ∧ isValueErrorResult (gc_to_pulses "sendir") = false := by
  constructor
  · decide
  · decide

/-- C7 (amended): for a `sendir` string, a missing field 3 raises
`IndexError`, a non-numeric field 3 raises `ValueError`, a zero frequency
raises `ZeroDivisionError`, and with a numeric non-zero frequency and
parsable counts the result is `round(count * (1_000_000 / freq))` (in
double precision) for each field from index 6 onward, in order. -/
theorem C7_gc_error_typing (s : String)
    (hsend : leadsWith "sendir".data
      (lowerChars ((splitOnChar ',' (stripChars s.data)).headD [])) = true) :
    ((splitOnChar ',' (stripChars s.data)).length ≤ 3 →
        gc_to_pulses s = .error (.indexError "list index out of range"))
    ∧ (∀ f3, (splitOnChar ',' (stripChars s.data)).get? 3 = some f3 →
        pyInt f3 = none →
        gc_to_pulses s = .error (.valueError
          ("invalid literal for int() with base 10: '" ++ ⟨f3⟩ ++ "'")))
    ∧ (∀ f3, (splitOnChar ',' (stripChars s.data)).get? 3 = some f3 →
        pyInt f3 = some 0 →
        gc_to_pulses s = .error (.zeroDivisionError "division by zero"))
    ∧ (∀ f3 fr counts, (splitOnChar ',' (stripChars s.data)).get? 3 = some f3 →
        pyInt f3 = some fr → fr ≠ 0 →
        pyIntAll ((splitOnChar ',' (stripChars s.data)).drop 6) = .ok counts →
        gc_to_pulses s = .ok (counts.map fun c =>
          pyRound (dmul (dOfInt c) (ddiv (dOfInt 1000000) (dOfInt fr))))) := by
  have hcond : ¬((!leadsWith "sendir".data
      (lowerChars ((splitOnChar ',' (stripChars s.data)).headD []))) = true) := by
    rw [hsend]
    decide
  refine ⟨?_, ?_, ?_, ?_⟩
  · intro hlen
    unfold gc_to_pulses
    rw [if_neg hcond, List.get?_eq_none.mpr hlen]
  · intro f3 h3 hpi
    unfold gc_to_pulses
    rw [if_neg hcond, h3]
    dsimp only
    rw [hpi]
  · intro f3 h3 hpi
    unfold gc_to_pulses
    rw [if_neg hcond, h3]
    dsimp only
    rw [hpi]
    dsimp only
    rw [if_pos rfl]
  · intro f3 fr counts h3 hpi hfr hcounts
    unfold gc_to_pulses
    rw [if_neg hcond, h3]
    dsimp only
    rw [hpi]
    dsimp only
    rw [if_neg hfr, hcounts]
    rfl

/-- C7 witness: the typed-path theorem applied to a concrete `sendir`
string with frequency 38000 Hz and counts 343, 171, 21, 21. -/
theorem C7_gc_error_typing_witness :
    gc_to_pulses "sendir,1:1,1,38000,1,1,343,171,21,21"
      = .ok [9026, 4500, 553, 553] := by
  have h := C7_gc_error_typing "sendir,1:1,1,38000,1,1,343,171,21,21" (by decide)
  have h4 := h.2.2.2 ("38000".data) 38000 [343, 171, 21, 21]
    (by decide) (by decide) (by decide) (by decide)
  exact h4.trans (by decide)

theorem isHexChar_of_isWhitespace (c : Char) (hcw : c.isWhitespace = true) :
    isHexChar c = false := by
  simp [Char.isWhitespace] at hcw
  rcases hcw with ((rfl | rfl) | rfl) | rfl <;> decide

theorem clean_hex_eq_filter_nonws (l : List Char)
    (h : (l.filter fun c => !c.isWhitespace).all isHexChar = true) :
    clean_hex l = l.filter fun c => !c.isWhitespace := by
  induction l with
  | nil => rfl
  | cons c t ih =>
    cases hcw : c.isWhitespace with
    | true =>
      rw [List.filter_cons_of_neg (by simp [hcw])] at h ⊢
      unfold clean_hex at ih ⊢
      rw [List.filter_cons_of_neg (by simp [isHexChar_of_isWhitespace c hcw])]
      exact ih h
    | false =>
      rw [List.filter_cons_of_pos (by simp [hcw])] at h ⊢
      simp only [List.all_cons, Bool.and_eq_true] at h
      unfold clean_hex at ih ⊢
      rw [List.filter_cons_of_pos h.1]
      rw [ih h.2]

theorem unhexlify_total (l : List Char) (hlen : l.length % 2 = 0)
    (hhex : l.all isHexChar = true) : ∃ bs, unhexlify l = some bs := by
  induction l using unhexlify.induct with
  | case1 => exact ⟨[], rfl⟩
  | case2 a => simp at hlen
  | case3 a b rest hab ih =>
    simp only [List.all_cons, Bool.and_eq_true] at hhex
    obtain ⟨ha, hb, hr⟩ := hhex
    obtain ⟨bs, hbs⟩ := ih (by simp only [List.length_cons] at hlen; omega) hr
    refine ⟨(hexVal a * 16 + hexVal b) :: bs, ?_⟩
    unfold unhexlify
    rw [if_pos hab, hbs]
    rfl
  | case4 a b rest hab =>
    simp only [List.all_cons, Bool.and_eq_true] at hhex
    exact absurd (by simp [hhex.1, hhex.2.1]) hab

/-- C8 counterexample: the cleaned hex content of `"26-00"` is `2600`,
which starts with the IR-command byte `0x26`, yet the converter does not
perform raw passthrough — it raises the unrecognized-format `ValueError`
(the passthrough test only strips whitespace and rejects the hyphen). -/
theorem C8_cex_cleaned_hex_universe :
    leadsWith "26".data (clean_hex (stripChars "26-00".data)) = true
    ∧ convert_to_broadlink "26-00" = .error (.valueError
        "Unrecognized IR format string (expected sendir/NEC/list for non-PRONTO)") := by
  constructor
  · decide
  · decide

/-- C8 (amended): for every string whose whitespace-stripped content is
pure hex of even length at least 4 starting with `26` (case-insensitive),
the converter returns exactly the hex-decoded bytes and never reaches
pulse parsing or the packet encoder. -/
theorem C8_raw_passthrough (s : String)
    (h : looks_like_broadlink_hex (stripChars s.data) = true) :
    ∃ bs, unhexlify (clean_hex (stripChars s.data)) = some bs
      ∧ convert_to_broadlink s = .ok (.raw bs) := by
  have h0 := h
  unfold looks_like_broadlink_hex at h
  dsimp only at h
  split_ifs at h with h1 h2
  simp only [Bool.or_eq_true, decide_eq_true_eq, not_or] at h1
  have h2' : ((stripChars s.data).filter fun c => !c.isWhitespace).all isHexChar
      = true := by
    cases hall : ((stripChars s.data).filter fun c => !c.isWhitespace).all isHexChar
    · exact absurd (by simp [hall]) h2
    · rfl
  have hclean := clean_hex_eq_filter_nonws (stripChars s.data) h2'
  obtain ⟨bs, hbs⟩ := unhexlify_total _ (by omega) h2'
  refine ⟨bs, by rw [hclean]; exact hbs, ?_⟩
  unfold convert_to_broadlink
  rw [if_pos h0]
  have hh : hex_to_broadlink ⟨stripChars s.data⟩ = .ok bs := by
    unfold hex_to_broadlink
    dsimp only
    rw [hclean, if_neg (by omega), hbs]
  rw [hh]
  rfl

/-- C8 witness: the boundary input `"2600"` decodes to exactly the two
bytes `0x26 0x00` by raw passthrough. -/
theorem C8_raw_passthrough_witness :
    convert_to_broadlink "2600" = .ok (.raw [0x26, 0x00]) := by
  obtain ⟨bs, h1, h2⟩ := C8_raw_passthrough "2600" (by decide)
  have h3 : unhexlify (clean_hex (stripChars ("2600" : String).data))
      = some [0x26, 0x00] := by decide
  rw [h3] at h1
  obtain rfl : bs = [0x26, 0x00] := (Option.some.inj h1).symm
  exact h2


end Broadlink
